import Mathlib

set_option maxHeartbeats 1000000

namespace LayerIndex

/-! Pagination helpers, embedded from src/layerindex/templatetags/paginator.py.

A Django QueryDict maps each string key to a list of string values; we model it
as an association list from keys to value lists (keys are unique in a QueryDict,
but no theorem below needs that assumption).  Percent-encoding and the
urlencode/parse round trip are the URL library's concern; we state properties at
the level of the decoded mapping, which is what "parsed back" observes. -/

abbrev QueryMap := List (String × List String)

/-- Dictionary lookup on a QueryMap: the value list of the first entry with the
given key (empty if the key is absent). -/
def getlist (q : QueryMap) (k : String) : List String :=
  match q.find? (fun p => p.1 == k) with
  | some p => p.2
  | none => []

/-- QueryDict item assignment: setting a key replaces its value list with the
singleton of the new value, or appends a new entry if the key is absent. -/
def setItem (q : QueryMap) (k v : String) : QueryMap :=
  if q.any (fun p => p.1 == k) then
    q.map (fun p => if p.1 == k then (p.1, [v]) else p)
  else
    q ++ [(k, [v])]

/-- Embedding of page_url: copy the request's query parameters and set the
page key to the decimal string form of the target page number. -/
def page_url (q : QueryMap) (page : Int) : QueryMap :=
  setItem q "page" (toString page)

/-- An element of an elided page range: a page number or the elision marker. -/
inductive PageItem where
  | page (n : Nat)
  | ellipsis
deriving DecidableEq

/-- Python range(a, b) as a list of naturals (empty when b ≤ a). -/
def pyRange (a b : Nat) : List Nat := List.range' a (b - a)

/-- Model of Django's Paginator.get_elided_page_range (django/core/paginator.py),
the external library routine that elided_page_range invokes: if the page count
fits inside the window, every page is listed; otherwise each side of the current
page's neighbourhood that does not reach the corresponding end is collapsed to
the end pages plus one elision marker.  The caller passes a page number already
validated to lie in 1..num_pages. -/
def get_elided_page_range (num_pages number on_each_side on_ends : Nat) :
    List PageItem :=
  if num_pages ≤ (on_each_side + on_ends) * 2 then
    (pyRange 1 (num_pages + 1)).map PageItem.page
  else
    (if (1 + on_each_side + on_ends) + 1 < number then
       (pyRange 1 (on_ends + 1)).map PageItem.page ++ [PageItem.ellipsis] ++
         (pyRange (number - on_each_side) (number + 1)).map PageItem.page
     else
       (pyRange 1 (number + 1)).map PageItem.page) ++
    (if number < (num_pages - on_each_side - on_ends) - 1 then
       [PageItem.ellipsis] ++
         (pyRange (num_pages - on_ends + 1) (num_pages + 1)).map PageItem.page
     else
       (pyRange (number + 1) (num_pages + 1)).map PageItem.page)

/-- The paginator behind a page object: either a recognized Django Paginator
(whose relevant state is its total page count) or some other object. -/
inductive PaginatorLike where
  | paginator (num_pages : Nat)
  | other
deriving DecidableEq

/-- A page object: the paginator it references and the current page number. -/
structure PageObj where
  paginator : PaginatorLike
  number : Nat
deriving DecidableEq

/-- Embedding of elided_page_range: an unrecognized paginator yields the empty
list, otherwise defer to the paginator's elided range with on_each_side = 3 and
on_ends = 1. -/
def elided_page_range (p : PageObj) : List PageItem :=
  match p.paginator with
  | .other => []
  | .paginator num_pages => get_elided_page_range num_pages p.number 3 1

/-! Release importer, embedded from src/rrs/tools/create_release.py.

The parsed YAML document is modelled with Option fields ("field present in the
mapping"); dates and names are opaque strings.  The persistent store is the
relevant slice of the database: maintenance plan names, release records and
milestone records.  A release is identified by (plan, name), a milestone by
(release's plan, release's name, name); these are the lookup keys the script
uses.  One run of main is a function from the parsed document, the two flags
and the initial store to an outcome: the process exit code, the store state
after the run (reflecting Django's transaction.atomic: committed only when the
with-block completes normally; rolled back when sys.exit(1) or the dry-run
sentinel DryRunRollbackException escapes it, and only that sentinel is caught
afterward, turning the rollback into a successful exit 0), and the fatal error
reported, if any. -/

/-- One milestone entry of the YAML list; a none field is absent from the map. -/
structure MSEntry where
  name : Option String
  start_date : Option String
  end_date : Option String
deriving DecidableEq

/-- The release object of the YAML document; milestones defaults to []. -/
structure RelData where
  plan : Option String
  name : Option String
  start_date : Option String
  end_date : Option String
  milestones : List MSEntry
deriving DecidableEq

/-- The parsed YAML document: none when the top-level release key is absent. -/
structure YamlDoc where
  release : Option RelData
deriving DecidableEq

/-- A release record in the store. -/
structure Release where
  plan : String
  name : String
  start_date : String
  end_date : String
deriving DecidableEq

/-- A milestone record in the store, keyed by its owning release's identity. -/
structure Milestone where
  plan : String
  release : String
  name : String
  start_date : String
  end_date : String
deriving DecidableEq

/-- The persistent store slice touched by the importer. -/
structure Store where
  plans : List String
  releases : List Release
  milestones : List Milestone
deriving DecidableEq

/-- The fatal errors the importer can report (one log line each). -/
inductive ImportError where
  | missingReleaseKey
  | missingReleaseField (field : String)
  | missingMilestoneField (index : Nat) (field : String)
  | unknownPlan (plan : String) (available : List String)
  | releaseExists (name : String) (plan : String)
  | milestoneExists (name : String) (release : String)
deriving DecidableEq

/-- Input-shape errors: those reported before any store access. -/
def isShapeError : ImportError → Bool
  | .missingReleaseKey => true
  | .missingReleaseField _ => true
  | .missingMilestoneField _ _ => true
  | _ => false

/-- Observable outcome of one run: exit code, store afterwards, error logged. -/
structure ImportOutcome where
  exitCode : Nat
  store : Store
  error : Option ImportError
deriving DecidableEq

/-- The required release fields, in the order the script checks them. -/
def releaseFields : List String := ["plan", "name", "start_date", "end_date"]

/-- The required milestone fields, in the order the script checks them. -/
def milestoneFields : List String := ["name", "start_date", "end_date"]

/-- Whether the named field is absent from the release object. -/
def relFieldMissing (r : RelData) (f : String) : Bool :=
  if f == "plan" then r.plan.isNone
  else if f == "name" then r.name.isNone
  else if f == "start_date" then r.start_date.isNone
  else if f == "end_date" then r.end_date.isNone
  else false

/-- Whether the named field is absent from the milestone entry. -/
def msFieldMissing (m : MSEntry) (f : String) : Bool :=
  if f == "name" then m.name.isNone
  else if f == "start_date" then m.start_date.isNone
  else if f == "end_date" then m.end_date.isNone
  else false

/-- The milestone validation loop: i is the zero-based position of the head of
the remaining list; the first missing field of the first incomplete milestone is
reported with the 1-based position. -/
def validateMilestones : List MSEntry → Nat → Option ImportError
  | [], _ => none
  | m :: rest, i =>
    match milestoneFields.find? (msFieldMissing m) with
    | some f => some (.missingMilestoneField (i + 1) f)
    | none => validateMilestones rest (i + 1)

/-- Validation of the release object: the first missing release field, else the
first incomplete milestone. -/
def relValidate (r : RelData) : Option ImportError :=
  match releaseFields.find? (relFieldMissing r) with
  | some f => some (.missingReleaseField f)
  | none => validateMilestones r.milestones 0

/-- Whole-document validation, including the top-level release key. -/
def validateDoc (doc : YamlDoc) : Option ImportError :=
  match doc.release with
  | none => some .missingReleaseKey
  | some r => relValidate r

/-- The lookup predicate for Release.objects.filter(plan=..., name=...). -/
def relMatch (plan name : String) (rel : Release) : Bool :=
  rel.plan == plan && rel.name == name

/-- The lookup predicate for Milestone.objects.filter(release=..., name=...). -/
def msMatch (plan rel name : String) (x : Milestone) : Bool :=
  x.plan == plan && x.release == rel && x.name == name

/-- Saving new dates on the release row fetched by filter(...).first(): the
first matching record's dates are overwritten, the rest is untouched. -/
def updateReleaseDates : List Release → String → String → String → String →
    List Release
  | [], _, _, _, _ => []
  | x :: rest, plan, name, sd, ed =>
    if relMatch plan name x then
      { x with start_date := sd, end_date := ed } :: rest
    else
      x :: updateReleaseDates rest plan name sd ed

/-- Saving new dates on the milestone row fetched by filter(...).first(). -/
def updateMilestoneDates : List Milestone → String → String → String → String →
    String → List Milestone
  | [], _, _, _, _, _ => []
  | x :: rest, plan, rel, nm, sd, ed =>
    if msMatch plan rel nm x then
      { x with start_date := sd, end_date := ed } :: rest
    else
      x :: updateMilestoneDates rest plan rel nm sd ed

/-- The release upsert step inside the transaction: an existing (plan, name)
release without the update flag is a conflict (sys.exit(1)); with the flag its
dates are overwritten; otherwise a new record is created. -/
def processRelease (upd : Bool) (plan name sd ed : String)
    (tbl : List Release) : Except ImportError (List Release) :=
  match tbl.find? (relMatch plan name) with
  | some _ =>
    if !upd then .error (.releaseExists name plan)
    else .ok (updateReleaseDates tbl plan name sd ed)
  | none => .ok (tbl ++ [⟨plan, name, sd, ed⟩])

/-- The record a fresh create makes for one milestone entry (validation has
ensured the fields are present, so getD never sees a none here). -/
def mkMilestone (plan rel : String) (m : MSEntry) : Milestone :=
  ⟨plan, rel, m.name.getD "", m.start_date.getD "", m.end_date.getD ""⟩

/-- The milestone upsert loop inside the transaction, in input order, with the
same exists/update/create branching as the release step, scoped to the one
release. -/
def processMilestones (upd : Bool) (plan rel : String) :
    List MSEntry → List Milestone → Except ImportError (List Milestone)
  | [], tbl => .ok tbl
  | m :: rest, tbl =>
    match tbl.find? (msMatch plan rel (m.name.getD "")) with
    | some _ =>
      if !upd then .error (.milestoneExists (m.name.getD "") rel)
      else
        processMilestones upd plan rel rest
          (updateMilestoneDates tbl plan rel (m.name.getD "")
            (m.start_date.getD "") (m.end_date.getD ""))
    | none => processMilestones upd plan rel rest (tbl ++ [mkMilestone plan rel m])

/-- The store stage of main: plan lookup (before the transaction, the error
listing every available plan name), then the transaction containing the release
upsert and the milestone loop.  An error inside the transaction exits 1 with
the staged changes rolled back; with the dry-run flag the sentinel exception
rolls everything back and the run still exits 0; otherwise the transaction
commits. -/
def upsertStage (r : RelData) (dryRun upd : Bool) (s : Store) : ImportOutcome :=
  if (r.plan.getD "") ∈ s.plans then
    match processRelease upd (r.plan.getD "") (r.name.getD "")
        (r.start_date.getD "") (r.end_date.getD "") s.releases with
    | .error e => ⟨1, s, some e⟩
    | .ok rels =>
      match processMilestones upd (r.plan.getD "") (r.name.getD "")
          r.milestones s.milestones with
      | .error e => ⟨1, s, some e⟩
      | .ok mss =>
        if dryRun then ⟨0, s, none⟩
        else ⟨0, { s with releases := rels, milestones := mss }, none⟩
  else ⟨1, s, some (.unknownPlan (r.plan.getD "") s.plans)⟩

/-- One run of main on an already-parsed document: validation (no store access),
then the store stage. -/
def runImport (doc : YamlDoc) (dryRun upd : Bool) (s : Store) : ImportOutcome :=
  match doc.release with
  | none => ⟨1, s, some .missingReleaseKey⟩
  | some r =>
    match relValidate r with
    | some e => ⟨1, s, some e⟩
    | none => upsertStage r dryRun upd s

/-! Small reduction equations for the importer, used throughout the proofs. -/

lemma runImport_none_eq (doc : YamlDoc) (d u : Bool) (s : Store)
    (hrel : doc.release = none) :
    runImport doc d u s = ⟨1, s, some .missingReleaseKey⟩ := by
  unfold runImport
  rw [hrel]

lemma runImport_release_eq (doc : YamlDoc) (r : RelData) (d u : Bool) (s : Store)
    (hrel : doc.release = some r) :
    runImport doc d u s =
      (match relValidate r with
       | some e => ⟨1, s, some e⟩
       | none => upsertStage r d u s) := by
  unfold runImport
  rw [hrel]

lemma runImport_valid (doc : YamlDoc) (r : RelData) (d u : Bool) (s : Store)
    (hrel : doc.release = some r) (hvalid : relValidate r = none) :
    runImport doc d u s = upsertStage r d u s := by
  rw [runImport_release_eq doc r d u s hrel, hvalid]

lemma validateDoc_eq (doc : YamlDoc) (r : RelData) (hrel : doc.release = some r) :
    validateDoc doc = relValidate r := by
  unfold validateDoc
  rw [hrel]

lemma upsertStage_no_plan (r : RelData) (d u : Bool) (s : Store)
    (hplan : (r.plan.getD "") ∉ s.plans) :
    upsertStage r d u s = ⟨1, s, some (.unknownPlan (r.plan.getD "") s.plans)⟩ := by
  unfold upsertStage
  rw [if_neg hplan]

lemma upsert_release_err (r : RelData) (d u : Bool) (s : Store) (e : ImportError)
    (hplan : (r.plan.getD "") ∈ s.plans)
    (hr : processRelease u (r.plan.getD "") (r.name.getD "")
      (r.start_date.getD "") (r.end_date.getD "") s.releases = .error e) :
    upsertStage r d u s = ⟨1, s, some e⟩ := by
  unfold upsertStage
  rw [if_pos hplan, hr]

lemma upsert_milestone_err (r : RelData) (d u : Bool) (s : Store)
    (rels : List Release) (e : ImportError)
    (hplan : (r.plan.getD "") ∈ s.plans)
    (hr : processRelease u (r.plan.getD "") (r.name.getD "")
      (r.start_date.getD "") (r.end_date.getD "") s.releases = .ok rels)
    (hm : processMilestones u (r.plan.getD "") (r.name.getD "")
      r.milestones s.milestones = .error e) :
    upsertStage r d u s = ⟨1, s, some e⟩ := by
  unfold upsertStage
  rw [if_pos hplan, hr, hm]

lemma upsert_ok (r : RelData) (d u : Bool) (s : Store)
    (rels : List Release) (mss : List Milestone)
    (hplan : (r.plan.getD "") ∈ s.plans)
    (hr : processRelease u (r.plan.getD "") (r.name.getD "")
      (r.start_date.getD "") (r.end_date.getD "") s.releases = .ok rels)
    (hm : processMilestones u (r.plan.getD "") (r.name.getD "")
      r.milestones s.milestones = .ok mss) :
    upsertStage r d u s =
      if d then ⟨0, s, none⟩
      else ⟨0, { s with releases := rels, milestones := mss }, none⟩ := by
  unfold upsertStage
  rw [if_pos hplan, hr, hm]

lemma processRelease_found (upd : Bool) (plan name sd ed : String)
    (tbl : List Release) (y : Release)
    (hf : tbl.find? (relMatch plan name) = some y) :
    processRelease upd plan name sd ed tbl =
      if !upd then .error (.releaseExists name plan)
      else .ok (updateReleaseDates tbl plan name sd ed) := by
  unfold processRelease
  rw [hf]

lemma processRelease_fresh (upd : Bool) (plan name sd ed : String)
    (tbl : List Release)
    (hf : tbl.find? (relMatch plan name) = none) :
    processRelease upd plan name sd ed tbl = .ok (tbl ++ [⟨plan, name, sd, ed⟩]) := by
  unfold processRelease
  rw [hf]

lemma processMilestones_cons_found (upd : Bool) (plan rel : String) (m : MSEntry)
    (rest : List MSEntry) (tbl : List Milestone) (y : Milestone)
    (hf : tbl.find? (msMatch plan rel (m.name.getD "")) = some y) :
    processMilestones upd plan rel (m :: rest) tbl =
      if !upd then .error (.milestoneExists (m.name.getD "") rel)
      else processMilestones upd plan rel rest
        (updateMilestoneDates tbl plan rel (m.name.getD "")
          (m.start_date.getD "") (m.end_date.getD "")) := by
  conv_lhs => unfold processMilestones
  rw [hf]

lemma processMilestones_cons_fresh (upd : Bool) (plan rel : String) (m : MSEntry)
    (rest : List MSEntry) (tbl : List Milestone)
    (hf : tbl.find? (msMatch plan rel (m.name.getD "")) = none) :
    processMilestones upd plan rel (m :: rest) tbl =
      processMilestones upd plan rel rest (tbl ++ [mkMilestone plan rel m]) := by
  conv_lhs => unfold processMilestones
  rw [hf]

lemma relMatch_iff (plan name : String) (rel : Release) :
    relMatch plan name rel = true ↔ rel.plan = plan ∧ rel.name = name := by
  simp [relMatch]

lemma msMatch_iff (plan rel name : String) (x : Milestone) :
    msMatch plan rel name x = true ↔
      x.plan = plan ∧ x.release = rel ∧ x.name = name := by
  simp [msMatch, and_assoc]

/-- C9: for every input page object that is not backed by a recognized
paginator type, elided_page_range returns an empty sequence rather than
failing. -/
theorem elided_page_range_unrecognized (p : PageObj)
    (h : p.paginator = .other) : elided_page_range p = [] := by
  unfold elided_page_range
  rw [h]

theorem elided_page_range_unrecognized_witness :
    elided_page_range ⟨.other, 5⟩ = [] :=
  elided_page_range_unrecognized ⟨.other, 5⟩ rfl

/-- C4: for every valid input whose plan name matches no existing
MaintenancePlan, the importer exits with code 1, the error carries the full
list of available plan names, and the store is unchanged (for every dry-run
and update flag value, the lookup failing before any write). -/
theorem unknown_plan_lists_available (doc : YamlDoc) (r : RelData) (s : Store)
    (d u : Bool) (hrel : doc.release = some r) (hvalid : relValidate r = none)
    (hplan : (r.plan.getD "") ∉ s.plans) :
    runImport doc d u s = ⟨1, s, some (.unknownPlan (r.plan.getD "") s.plans)⟩ := by
  rw [runImport_valid doc r d u s hrel hvalid]
  exact upsertStage_no_plan r d u s hplan

theorem unknown_plan_lists_available_witness :
    runImport ⟨some ⟨some "p", some "1.0", some "d1", some "d2", []⟩⟩ false false
        ⟨["q", "z"], [], []⟩ =
      ⟨1, ⟨["q", "z"], [], []⟩, some (.unknownPlan "p" ["q", "z"])⟩ :=
  unknown_plan_lists_available _ _ _ false false rfl rfl (by decide)

lemma validateMilestones_shape (ms : List MSEntry) :
    ∀ i : Nat,
      (∃ m ∈ ms, ∃ f ∈ milestoneFields, msFieldMissing m f) →
      ∃ j g, validateMilestones ms i = some (.missingMilestoneField j g) := by
  induction ms with
  | nil =>
    intro i h
    simp at h
  | cons m rest ih =>
    intro i h
    cases hf : milestoneFields.find? (msFieldMissing m) with
    | some f =>
      refine ⟨i + 1, f, ?_⟩
      unfold validateMilestones
      rw [hf]
    | none =>
      have step : validateMilestones (m :: rest) i = validateMilestones rest (i + 1) := by
        conv_lhs => unfold validateMilestones
        rw [hf]
      rw [step]
      obtain ⟨m', hm', f, hfm, hmiss⟩ := h
      rcases List.mem_cons.mp hm' with rfl | hrest
      · exact absurd hmiss (List.find?_eq_none.mp hf f hfm)
      · exact ih (i + 1) ⟨m', hrest, f, hfm, hmiss⟩

/-- C3: for every parsed document that lacks the top-level release key, or
whose release object or some milestone entry misses a required field, the
importer exits with code 1 reporting an input-shape error, and the outcome is
the same for every store with the store returned unchanged: the store is never
accessed. -/
theorem shape_error_before_store_access (doc : YamlDoc)
    (hshape : doc.release = none ∨
      ∃ r, doc.release = some r ∧
        ((∃ f ∈ releaseFields, relFieldMissing r f) ∨
         ∃ m ∈ r.milestones, ∃ f ∈ milestoneFields, msFieldMissing m f)) :
    ∃ e, isShapeError e ∧ ∀ (d u : Bool) (s : Store),
      runImport doc d u s = ⟨1, s, some e⟩ := by
  rcases hshape with hnone | ⟨r, hrel, hmiss⟩
  · exact ⟨.missingReleaseKey, rfl, fun d u s => runImport_none_eq doc d u s hnone⟩
  · have hv : ∃ e, isShapeError e ∧ relValidate r = some e := by
      cases hf : releaseFields.find? (relFieldMissing r) with
      | some f =>
        refine ⟨.missingReleaseField f, rfl, ?_⟩
        unfold relValidate
        rw [hf]
      | none =>
        rcases hmiss with ⟨f, hfm, hm⟩ | hms
        · exact absurd hm (List.find?_eq_none.mp hf f hfm)
        · obtain ⟨j, g, hj⟩ := validateMilestones_shape r.milestones 0 hms
          refine ⟨.missingMilestoneField j g, rfl, ?_⟩
          unfold relValidate
          rw [hf]
          exact hj
    obtain ⟨e, hse, hve⟩ := hv
    refine ⟨e, hse, fun d u s => ?_⟩
    rw [runImport_release_eq doc r d u s hrel, hve]

theorem shape_error_before_store_access_witness :
    ∃ e, isShapeError e ∧
      runImport ⟨none⟩ false false ⟨["p"], [], []⟩ =
        ⟨1, ⟨["p"], [], []⟩, some e⟩ := by
  obtain ⟨e, h1, h2⟩ := shape_error_before_store_access ⟨none⟩ (Or.inl rfl)
  exact ⟨e, h1, h2 false false ⟨["p"], [], []⟩⟩

/-! Conflict lemmas, shared by the duplicate-handling claims. -/

lemma upsert_release_conflict (r : RelData) (d : Bool) (s : Store)
    (hplan : (r.plan.getD "") ∈ s.plans)
    (hex : ∃ rel ∈ s.releases, relMatch (r.plan.getD "") (r.name.getD "") rel) :
    upsertStage r d false s =
      ⟨1, s, some (.releaseExists (r.name.getD "") (r.plan.getD ""))⟩ := by
  have hs : (s.releases.find? (relMatch (r.plan.getD "") (r.name.getD ""))).isSome := by
    rw [List.find?_isSome]
    obtain ⟨x, hx, hpx⟩ := hex
    exact ⟨x, hx, hpx⟩
  obtain ⟨y, hy⟩ := Option.isSome_iff_exists.mp hs
  refine upsert_release_err r d false s _ hplan ?_
  rw [processRelease_found false _ _ _ _ _ y hy]
  rfl

lemma processMilestones_conflict (plan rel : String) (ms : List MSEntry) :
    ∀ tbl : List Milestone,
      (∃ m ∈ ms, ∃ x ∈ tbl, msMatch plan rel (m.name.getD "") x) →
      ∃ nm, processMilestones false plan rel ms tbl =
        .error (.milestoneExists nm rel) := by
  induction ms with
  | nil =>
    intro tbl h
    simp at h
  | cons m rest ih =>
    intro tbl h
    cases hf : tbl.find? (msMatch plan rel (m.name.getD "")) with
    | some y =>
      refine ⟨m.name.getD "", ?_⟩
      rw [processMilestones_cons_found false plan rel m rest tbl y hf]
      rfl
    | none =>
      rw [processMilestones_cons_fresh false plan rel m rest tbl hf]
      obtain ⟨m', hm', x, hx, hmx⟩ := h
      rcases List.mem_cons.mp hm' with rfl | hrest
      · exact absurd hmx (List.find?_eq_none.mp hf x hx)
      · exact ih _ ⟨m', hrest, x, List.mem_append_left _ hx, hmx⟩

lemma upsert_milestone_conflict (r : RelData) (d : Bool) (s : Store)
    (hplan : (r.plan.getD "") ∈ s.plans)
    (hfresh : ∀ rel ∈ s.releases, ¬ relMatch (r.plan.getD "") (r.name.getD "") rel)
    (hconf : ∃ m ∈ r.milestones, ∃ x ∈ s.milestones,
        msMatch (r.plan.getD "") (r.name.getD "") (m.name.getD "") x) :
    ∃ nm, upsertStage r d false s =
      ⟨1, s, some (.milestoneExists nm (r.name.getD ""))⟩ := by
  obtain ⟨nm, hnm⟩ := processMilestones_conflict _ _ r.milestones s.milestones hconf
  exact ⟨nm, upsert_milestone_err r d false s
    (s.releases ++ [⟨r.plan.getD "", r.name.getD "",
      r.start_date.getD "", r.end_date.getD ""⟩]) _ hplan
    (processRelease_fresh false _ _ _ _ _ (List.find?_eq_none.mpr hfresh)) hnm⟩

/-- C2: for every store already containing the (plan, name) release described
by a valid input, running without the update flag exits 1 naming the release
and leaves the store unchanged, whatever the dry-run flag; and when the release
is fresh but some input milestone's (release, name) key already exists among
the stored milestones, the run exits 1 naming a conflicting milestone and
leaves the store unchanged. -/
theorem duplicate_without_update (doc : YamlDoc) (r : RelData) (s : Store)
    (d : Bool) (hrel : doc.release = some r) (hvalid : relValidate r = none)
    (hplan : (r.plan.getD "") ∈ s.plans) :
    ((∃ rel ∈ s.releases, rel.plan = r.plan.getD "" ∧ rel.name = r.name.getD "") →
      runImport doc d false s =
        ⟨1, s, some (.releaseExists (r.name.getD "") (r.plan.getD ""))⟩) ∧
    ((∀ rel ∈ s.releases, ¬(rel.plan = r.plan.getD "" ∧ rel.name = r.name.getD "")) →
      (∃ m ∈ r.milestones, ∃ x ∈ s.milestones,
        x.plan = r.plan.getD "" ∧ x.release = r.name.getD "" ∧
          x.name = m.name.getD "") →
      ∃ nm, runImport doc d false s =
        ⟨1, s, some (.milestoneExists nm (r.name.getD ""))⟩) := by
  constructor
  · intro hex
    rw [runImport_valid doc r d false s hrel hvalid]
    refine upsert_release_conflict r d s hplan ?_
    obtain ⟨rel, hm, h1, h2⟩ := hex
    exact ⟨rel, hm, (relMatch_iff _ _ rel).mpr ⟨h1, h2⟩⟩
  · intro hfresh hconf
    rw [runImport_valid doc r d false s hrel hvalid]
    refine upsert_milestone_conflict r d s hplan
      (fun rel hm hb => hfresh rel hm ((relMatch_iff _ _ rel).mp hb)) ?_
    obtain ⟨m, hm, x, hx, h1, h2, h3⟩ := hconf
    exact ⟨m, hm, x, hx, (msMatch_iff _ _ _ x).mpr ⟨h1, h2, h3⟩⟩

theorem duplicate_without_update_witness :
    runImport ⟨some ⟨some "p", some "1.0", some "d1", some "d2", []⟩⟩ false false
        ⟨["p"], [⟨"p", "1.0", "x", "y"⟩], []⟩ =
      ⟨1, ⟨["p"], [⟨"p", "1.0", "x", "y"⟩], []⟩,
        some (.releaseExists "1.0" "p")⟩ :=
  (duplicate_without_update ⟨some ⟨some "p", some "1.0", some "d1", some "d2", []⟩⟩
      ⟨some "p", some "1.0", some "d1", some "d2", []⟩
      ⟨["p"], [⟨"p", "1.0", "x", "y"⟩], []⟩ false rfl rfl (by decide)).1
    ⟨⟨"p", "1.0", "x", "y"⟩, by decide, rfl, rfl⟩

/-- C10: the dry-run flag does not mask conflict errors: for every valid input
whose release already exists in the store, or whose release is fresh while an
input milestone's key already exists in the store, running with dry-run set and
the update flag unset exits with code 1, not 0, because the sentinel rollback
exception is only raised after the whole upsert loop finished without
conflict. -/
theorem dry_run_does_not_mask_conflicts (doc : YamlDoc) (r : RelData) (s : Store)
    (hrel : doc.release = some r) (hvalid : relValidate r = none)
    (hplan : (r.plan.getD "") ∈ s.plans)
    (hconf : (∃ rel ∈ s.releases,
        rel.plan = r.plan.getD "" ∧ rel.name = r.name.getD "") ∨
      ((∀ rel ∈ s.releases,
          ¬(rel.plan = r.plan.getD "" ∧ rel.name = r.name.getD "")) ∧
        ∃ m ∈ r.milestones, ∃ x ∈ s.milestones,
          x.plan = r.plan.getD "" ∧ x.release = r.name.getD "" ∧
            x.name = m.name.getD "")) :
    (runImport doc true false s).exitCode = 1 := by
  rw [runImport_valid doc r true false s hrel hvalid]
  rcases hconf with hex | ⟨hfresh, hms⟩
  · rw [upsert_release_conflict r true s hplan (by
      obtain ⟨rel, hm, h1, h2⟩ := hex
      exact ⟨rel, hm, (relMatch_iff _ _ rel).mpr ⟨h1, h2⟩⟩)]
  · obtain ⟨nm, hnm⟩ := upsert_milestone_conflict r true s hplan
      (fun rel hm hb => hfresh rel hm ((relMatch_iff _ _ rel).mp hb))
      (by
        obtain ⟨m, hm, x, hx, h1, h2, h3⟩ := hms
        exact ⟨m, hm, x, hx, (msMatch_iff _ _ _ x).mpr ⟨h1, h2, h3⟩⟩)
    rw [hnm]

theorem dry_run_does_not_mask_conflicts_witness :
    (runImport ⟨some ⟨some "p", some "1.0", some "d1", some "d2", []⟩⟩ true false
      ⟨["p"], [⟨"p", "1.0", "x", "y"⟩], []⟩).exitCode = 1 :=
  dry_run_does_not_mask_conflicts ⟨some ⟨some "p", some "1.0", some "d1", some "d2", []⟩⟩
    ⟨some "p", some "1.0", some "d1", some "d2", []⟩
    ⟨["p"], [⟨"p", "1.0", "x", "y"⟩], []⟩ rfl rfl (by decide)
    (Or.inl ⟨⟨"p", "1.0", "x", "y"⟩, by decide, rfl, rfl⟩)

/-! Lemmas about setItem, for the page-link builder claim. -/

lemma getlist_setItem_self (q : QueryMap) (k v : String) :
    getlist (setItem q k v) k = [v] := by
  unfold setItem
  by_cases h : q.any (fun p => p.1 == k)
  · rw [if_pos h]
    obtain ⟨x, hx, hpx⟩ := List.any_eq_true.mp h
    have hs : (q.find? (fun p => p.1 == k)).isSome :=
      List.find?_isSome.mpr ⟨x, hx, hpx⟩
    obtain ⟨y, hy⟩ := Option.isSome_iff_exists.mp hs
    have hyk : (y.1 == k) = true := by simpa using List.find?_some hy
    unfold getlist
    rw [List.find?_map]
    have hpf : ((fun p : String × List String => p.1 == k) ∘
        (fun p => if p.1 == k then (p.1, [v]) else p)) =
        (fun p : String × List String => p.1 == k) := by
      funext p
      by_cases hp : p.1 = k
      · simp [hp]
      · simp [hp]
    rw [hpf, hy]
    have hy1 : y.1 = k := by simpa using hyk
    simp [hy1]
  · rw [if_neg h]
    unfold getlist
    rw [List.find?_append]
    have hnone : q.find? (fun p => p.1 == k) = none := by
      rw [List.find?_eq_none]
      intro x hx hpx
      exact h (List.any_eq_true.mpr ⟨x, hx, hpx⟩)
    rw [hnone]
    simp

lemma getlist_setItem_other (q : QueryMap) (k v k' : String) (hne : k' ≠ k) :
    getlist (setItem q k v) k' = getlist q k' := by
  unfold setItem
  by_cases h : q.any (fun p => p.1 == k)
  · rw [if_pos h]
    unfold getlist
    rw [List.find?_map]
    have hpf : ((fun p : String × List String => p.1 == k') ∘
        (fun p => if p.1 == k then (p.1, [v]) else p)) =
        (fun p : String × List String => p.1 == k') := by
      funext p
      by_cases hp : p.1 = k
      · simp [hp]
      · simp [hp]
    rw [hpf]
    cases hq : q.find? (fun p => p.1 == k') with
    | none => simp
    | some y =>
      have hyk : (y.1 == k') = true := by simpa using List.find?_some hq
      have hy1 : y.1 = k' := by simpa using hyk
      have hyne : ¬ y.1 = k := by
        rw [hy1]
        exact hne
      simp [hyne]
  · rw [if_neg h]
    unfold getlist
    rw [List.find?_append]
    cases hq : q.find? (fun p => p.1 == k') with
    | none =>
      simp only [Option.none_or]
      have hk : (([(k, [v])] : QueryMap).find? (fun p => p.1 == k')) = none := by
        simp [List.find?_singleton, Ne.symm hne]
      rw [hk]
    | some y => simp

/-- C7: for every query-parameter mapping Q (possibly multi-valued) and every
page number N, page_url produces a mapping whose page key holds exactly the
decimal string of N and whose every other key keeps exactly the values it had
in Q; as a pure function it leaves the input mapping itself untouched. -/
theorem page_url_preserves_query (q : QueryMap) (n : Int) :
    getlist (page_url q n) "page" = [toString n] ∧
    ∀ k, k ≠ "page" → getlist (page_url q n) k = getlist q k :=
  ⟨getlist_setItem_self q "page" (toString n),
   fun k hk => getlist_setItem_other q "page" (toString n) k hk⟩

/-- C8 counterexample: the claim says every paginator with at most
2×3 + 2×1 + 1 = 9 pages yields no elision marker, but with 9 pages and current
page 1 the library's threshold (3 + 1) × 2 = 8 is exceeded and the far end is
elided, so a marker appears. -/
theorem elided_nine_pages_counterexample :
    9 ≤ 2 * 3 + 2 * 1 + 1 ∧
      PageItem.ellipsis ∈ elided_page_range ⟨.paginator 9, 1⟩ := by
  decide

lemma elided_middle (P n : Nat) (h6 : 6 < n) (h5 : n + 5 < P) :
    elided_page_range ⟨.paginator P, n⟩ =
      [PageItem.page 1, PageItem.ellipsis, PageItem.page (n - 3),
       PageItem.page (n - 2), PageItem.page (n - 1), PageItem.page n,
       PageItem.ellipsis, PageItem.page P] := by
  show get_elided_page_range P n 3 1 = _
  unfold get_elided_page_range
  rw [if_neg (by omega), if_pos (by omega), if_pos (by omega)]
  have r1 : pyRange 1 (1 + 1) = [1] := rfl
  have r2 : pyRange (n - 3) (n + 1) = [n - 3, n - 2, n - 1, n] := by
    unfold pyRange
    have h4 : n + 1 - (n - 3) = 4 := by omega
    rw [h4]
    have hr : List.range' (n - 3) 4 = [n - 3, n - 3 + 1, n - 3 + 2, n - 3 + 3] := rfl
    have e1 : n - 3 + 1 = n - 2 := by omega
    have e2 : n - 3 + 2 = n - 1 := by omega
    have e3 : n - 3 + 3 = n := by omega
    rw [hr, e1, e2, e3]
  have r3 : pyRange (P - 1 + 1) (P + 1) = [P] := by
    unfold pyRange
    have hP : P - 1 + 1 = P := by omega
    rw [hP]
    have h1 : P + 1 - P = 1 := by omega
    rw [h1]
    rfl
  rw [r1, r2, r3]
  rfl

/-- C8 amended: for every paginator with total page count P at most
(3 + 1) × 2 = 8 (not 9 as claimed: with P = 9 and the current page at an end
one marker is emitted), elided_page_range yields no elision marker; and for
every large P with the current page in the middle it yields exactly two
elision markers and never two consecutive ones. -/
theorem elided_page_range_markers (P n : Nat) (_hn1 : 1 ≤ n) (_hnP : n ≤ P) :
    (P ≤ (3 + 1) * 2 → PageItem.ellipsis ∉ elided_page_range ⟨.paginator P, n⟩) ∧
    (6 < n → n + 5 < P →
      (elided_page_range ⟨.paginator P, n⟩).count PageItem.ellipsis = 2 ∧
      (elided_page_range ⟨.paginator P, n⟩).Chain'
        (fun a b => ¬(a = PageItem.ellipsis ∧ b = PageItem.ellipsis))) := by
  constructor
  · intro hP
    show PageItem.ellipsis ∉ get_elided_page_range P n 3 1
    unfold get_elided_page_range
    rw [if_pos hP]
    simp
  · intro h6 h5
    rw [elided_middle P n h6 h5]
    constructor
    · rfl
    · simp [List.chain'_cons]

theorem elided_page_range_markers_witness :
    (elided_page_range ⟨.paginator 20, 10⟩).count PageItem.ellipsis = 2 ∧
    (elided_page_range ⟨.paginator 20, 10⟩).Chain'
      (fun a b => ¬(a = PageItem.ellipsis ∧ b = PageItem.ellipsis)) :=
  (elided_page_range_markers 20 10 (by decide) (by decide)).2 (by decide) (by decide)

/-! Lemmas for the field-order claim. -/

lemma isNone_false_of_ne {α : Type} {o : Option α} (h : o ≠ none) :
    o.isNone = false := by
  cases o with
  | none => exact absurd rfl h
  | some a => rfl

lemma validateMilestones_append (pre : List MSEntry) :
    ∀ (l : List MSEntry) (i : Nat),
      (∀ p ∈ pre, milestoneFields.find? (msFieldMissing p) = none) →
      validateMilestones (pre ++ l) i = validateMilestones l (i + pre.length) := by
  induction pre with
  | nil =>
    intro l i h
    simp
  | cons p rest ih =>
    intro l i h
    have hp := h p (List.mem_cons_self p rest)
    rw [List.cons_append]
    have step : validateMilestones (p :: (rest ++ l)) i =
        validateMilestones (rest ++ l) (i + 1) := by
      conv_lhs => unfold validateMilestones
      rw [hp]
    rw [step, ih l (i + 1) (fun p' hp' => h p' (List.mem_cons_of_mem p hp'))]
    have harith : i + 1 + rest.length = i + (p :: rest).length := by
      simp only [List.length_cons]
      omega
    rw [harith]

lemma msComplete_find? (p : MSEntry) (h1 : p.name ≠ none)
    (h2 : p.start_date ≠ none) (h3 : p.end_date ≠ none) :
    milestoneFields.find? (msFieldMissing p) = none := by
  unfold milestoneFields
  rw [List.find?_cons_of_neg _ (by
        rw [show msFieldMissing p "name" = p.name.isNone from rfl,
          isNone_false_of_ne h1]
        simp),
      List.find?_cons_of_neg _ (by
        rw [show msFieldMissing p "start_date" = p.start_date.isNone from rfl,
          isNone_false_of_ne h2]
        simp),
      List.find?_cons_of_neg _ (by
        rw [show msFieldMissing p "end_date" = p.end_date.isNone from rfl,
          isNone_false_of_ne h3]
        simp)]
  rfl

lemma msFirstMissing_find? (m : MSEntry)
    (h : m.name = none ∨ m.start_date = none ∨ m.end_date = none) :
    milestoneFields.find? (msFieldMissing m) =
      some (if m.name = none then "name"
            else if m.start_date = none then "start_date" else "end_date") := by
  by_cases h1 : m.name = none
  · rw [if_pos h1]
    unfold milestoneFields
    exact List.find?_cons_of_pos _ (by
      rw [show msFieldMissing m "name" = m.name.isNone from rfl, h1]
      rfl)
  · rw [if_neg h1]
    have step1 : ¬ msFieldMissing m "name" = true := by
      rw [show msFieldMissing m "name" = m.name.isNone from rfl,
        isNone_false_of_ne h1]
      simp
    by_cases h2 : m.start_date = none
    · rw [if_pos h2]
      unfold milestoneFields
      rw [List.find?_cons_of_neg _ step1]
      exact List.find?_cons_of_pos _ (by
        rw [show msFieldMissing m "start_date" = m.start_date.isNone from rfl, h2]
        rfl)
    · rw [if_neg h2]
      have h3 : m.end_date = none := by tauto
      unfold milestoneFields
      rw [List.find?_cons_of_neg _ step1,
        List.find?_cons_of_neg _ (by
          rw [show msFieldMissing m "start_date" = m.start_date.isNone from rfl,
            isNone_false_of_ne h2]
          simp)]
      exact List.find?_cons_of_pos _ (by
        rw [show msFieldMissing m "end_date" = m.end_date.isNone from rfl, h3]
        rfl)

/-- C5: release fields are checked in the fixed order plan, name, start_date,
end_date and the first missing one is the field reported; milestone entries are
checked in input order with fields in the order name, start_date, end_date, and
the first incomplete milestone is reported with its 1-based position and its
first missing field. -/
theorem validation_field_order (doc : YamlDoc) (r : RelData)
    (hrel : doc.release = some r) :
    (r.plan = none → validateDoc doc = some (.missingReleaseField "plan")) ∧
    (r.plan ≠ none → r.name = none →
      validateDoc doc = some (.missingReleaseField "name")) ∧
    (r.plan ≠ none → r.name ≠ none → r.start_date = none →
      validateDoc doc = some (.missingReleaseField "start_date")) ∧
    (r.plan ≠ none → r.name ≠ none → r.start_date ≠ none → r.end_date = none →
      validateDoc doc = some (.missingReleaseField "end_date")) ∧
    (∀ pre m rest, r.plan ≠ none → r.name ≠ none → r.start_date ≠ none →
      r.end_date ≠ none → r.milestones = pre ++ m :: rest →
      (∀ p ∈ pre, p.name ≠ none ∧ p.start_date ≠ none ∧ p.end_date ≠ none) →
      (m.name = none ∨ m.start_date = none ∨ m.end_date = none) →
      validateDoc doc = some (.missingMilestoneField (pre.length + 1)
        (if m.name = none then "name"
         else if m.start_date = none then "start_date" else "end_date"))) := by
  have e1 : relFieldMissing r "plan" = r.plan.isNone := rfl
  have e2 : relFieldMissing r "name" = r.name.isNone := rfl
  have e3 : relFieldMissing r "start_date" = r.start_date.isNone := rfl
  have e4 : relFieldMissing r "end_date" = r.end_date.isNone := rfl
  rw [validateDoc_eq doc r hrel]
  refine ⟨?_, ?_, ?_, ?_, ?_⟩
  · intro hp
    have h1 : releaseFields.find? (relFieldMissing r) = some "plan" := by
      unfold releaseFields
      exact List.find?_cons_of_pos _ (by rw [e1, hp]; rfl)
    unfold relValidate
    rw [h1]
  · intro hp hn
    have h1 : releaseFields.find? (relFieldMissing r) = some "name" := by
      unfold releaseFields
      rw [List.find?_cons_of_neg _ (by rw [e1, isNone_false_of_ne hp]; simp)]
      exact List.find?_cons_of_pos _ (by rw [e2, hn]; rfl)
    unfold relValidate
    rw [h1]
  · intro hp hn hs
    have h1 : releaseFields.find? (relFieldMissing r) = some "start_date" := by
      unfold releaseFields
      rw [List.find?_cons_of_neg _ (by rw [e1, isNone_false_of_ne hp]; simp),
        List.find?_cons_of_neg _ (by rw [e2, isNone_false_of_ne hn]; simp)]
      exact List.find?_cons_of_pos _ (by rw [e3, hs]; rfl)
    unfold relValidate
    rw [h1]
  · intro hp hn hs he
    have h1 : releaseFields.find? (relFieldMissing r) = some "end_date" := by
      unfold releaseFields
      rw [List.find?_cons_of_neg _ (by rw [e1, isNone_false_of_ne hp]; simp),
        List.find?_cons_of_neg _ (by rw [e2, isNone_false_of_ne hn]; simp),
        List.find?_cons_of_neg _ (by rw [e3, isNone_false_of_ne hs]; simp)]
      exact List.find?_cons_of_pos _ (by rw [e4, he]; rfl)
    unfold relValidate
    rw [h1]
  · intro pre m rest hp hn hs he hms hpre hmiss
    have hfind : releaseFields.find? (relFieldMissing r) = none := by
      unfold releaseFields
      rw [List.find?_cons_of_neg _ (by rw [e1, isNone_false_of_ne hp]; simp),
        List.find?_cons_of_neg _ (by rw [e2, isNone_false_of_ne hn]; simp),
        List.find?_cons_of_neg _ (by rw [e3, isNone_false_of_ne hs]; simp),
        List.find?_cons_of_neg _ (by rw [e4, isNone_false_of_ne he]; simp)]
      rfl
    unfold relValidate
    rw [hfind, hms, validateMilestones_append pre (m :: rest) 0
      (fun p hp' => msComplete_find? p (hpre p hp').1 (hpre p hp').2.1
        (hpre p hp').2.2)]
    simp only [Nat.zero_add]
    have step : validateMilestones (m :: rest) pre.length =
        some (.missingMilestoneField (pre.length + 1)
          (if m.name = none then "name"
           else if m.start_date = none then "start_date" else "end_date")) := by
      conv_lhs => unfold validateMilestones
      rw [msFirstMissing_find? m hmiss]
    rw [step]

theorem validation_field_order_witness :
    validateDoc ⟨some ⟨some "p", some "n", some "sd", some "ed",
        [⟨some "M1", some "a", some "b"⟩, ⟨some "M2", none, some "c"⟩]⟩⟩ =
      some (.missingMilestoneField 2 "start_date") := by
  have h := validation_field_order
    ⟨some ⟨some "p", some "n", some "sd", some "ed",
      [⟨some "M1", some "a", some "b"⟩, ⟨some "M2", none, some "c"⟩]⟩⟩
    ⟨some "p", some "n", some "sd", some "ed",
      [⟨some "M1", some "a", some "b"⟩, ⟨some "M2", none, some "c"⟩]⟩ rfl
  have h5 := h.2.2.2.2 [⟨some "M1", some "a", some "b"⟩]
    ⟨some "M2", none, some "c"⟩ []
    (by simp) (by simp) (by simp) (by simp) rfl
    (by
      intro p hp
      simp only [List.mem_singleton] at hp
      subst hp
      exact ⟨by simp, by simp, by simp⟩)
    (Or.inr (Or.inl rfl))
  simpa using h5

/-! Lemmas characterizing a fresh (conflict-free) run and a same-file update
run, for the dry-run and re-import claims. -/

lemma processRelease_false_ok (plan name sd ed : String) (tbl rels : List Release)
    (h : processRelease false plan name sd ed tbl = .ok rels) :
    tbl.find? (relMatch plan name) = none ∧
      rels = tbl ++ [⟨plan, name, sd, ed⟩] := by
  cases hf : tbl.find? (relMatch plan name) with
  | some y =>
    rw [processRelease_found false plan name sd ed tbl y hf] at h
    simp at h
  | none =>
    rw [processRelease_fresh false plan name sd ed tbl hf] at h
    injection h with h
    exact ⟨rfl, h.symm⟩

lemma updateReleaseDates_append_fresh (plan name sd ed : String) :
    ∀ l : List Release,
      (∀ x ∈ l, ¬ relMatch plan name x) →
      updateReleaseDates (l ++ [⟨plan, name, sd, ed⟩]) plan name sd ed =
        l ++ [⟨plan, name, sd, ed⟩] := by
  intro l
  induction l with
  | nil =>
    intro _
    rw [List.nil_append]
    have hmatch : relMatch plan name ⟨plan, name, sd, ed⟩ = true := by
      simp [relMatch]
    conv_lhs => unfold updateReleaseDates
    rw [if_pos hmatch]
  | cons x rest ih =>
    intro hfr
    rw [List.cons_append]
    conv_lhs => unfold updateReleaseDates
    rw [if_neg (hfr x (List.mem_cons_self x rest)),
      ih (fun x' hx' => hfr x' (List.mem_cons_of_mem x hx'))]

lemma processRelease_update_found (plan name sd ed : String) (l : List Release)
    (hfr : ∀ x ∈ l, ¬ relMatch plan name x) :
    processRelease true plan name sd ed (l ++ [⟨plan, name, sd, ed⟩]) =
      .ok (l ++ [⟨plan, name, sd, ed⟩]) := by
  have hmatch : relMatch plan name ⟨plan, name, sd, ed⟩ = true := by
    simp [relMatch]
  have hf : List.find? (relMatch plan name)
        (l ++ [(⟨plan, name, sd, ed⟩ : Release)]) =
      some ⟨plan, name, sd, ed⟩ := by
    rw [List.find?_append, List.find?_eq_none.mpr hfr, Option.none_or]
    exact List.find?_cons_of_pos _ hmatch
  rw [processRelease_found true plan name sd ed _ _ hf]
  rw [if_neg (by simp)]
  rw [updateReleaseDates_append_fresh plan name sd ed l hfr]

lemma processMilestones_fresh (plan rel : String) (ms : List MSEntry) :
    ∀ tbl mss : List Milestone,
      processMilestones false plan rel ms tbl = .ok mss →
      mss = tbl ++ ms.map (mkMilestone plan rel) ∧
      ∀ m ∈ ms, mss.find? (msMatch plan rel (m.name.getD "")) =
        some (mkMilestone plan rel m) := by
  induction ms with
  | nil =>
    intro tbl mss h
    have h' : (Except.ok tbl : Except ImportError (List Milestone)) = .ok mss := h
    injection h' with h'
    subst h'
    exact ⟨by simp, by simp⟩
  | cons m rest ih =>
    intro tbl mss h
    cases hf : tbl.find? (msMatch plan rel (m.name.getD "")) with
    | some y =>
      rw [processMilestones_cons_found false plan rel m rest tbl y hf] at h
      simp at h
    | none =>
      rw [processMilestones_cons_fresh false plan rel m rest tbl hf] at h
      obtain ⟨h1, h2⟩ := ih (tbl ++ [mkMilestone plan rel m]) mss h
      have hmss : mss = tbl ++ (m :: rest).map (mkMilestone plan rel) := by
        rw [h1]
        simp
      refine ⟨hmss, ?_⟩
      intro m' hm'
      rcases List.mem_cons.mp hm' with rfl | hrest
      · rw [hmss, List.map_cons, List.find?_append, hf, Option.none_or]
        exact List.find?_cons_of_pos _ (by simp [msMatch, mkMilestone])
      · exact h2 m' hrest

lemma updateMilestoneDates_self (plan rel : String) (m : MSEntry) :
    ∀ tbl : List Milestone,
      tbl.find? (msMatch plan rel (m.name.getD "")) =
        some (mkMilestone plan rel m) →
      updateMilestoneDates tbl plan rel (m.name.getD "")
        (m.start_date.getD "") (m.end_date.getD "") = tbl := by
  intro tbl
  induction tbl with
  | nil =>
    intro h
    simp at h
  | cons x rest ih =>
    intro h
    cases hx : msMatch plan rel (m.name.getD "") x with
    | true =>
      rw [List.find?_cons_of_pos _ hx] at h
      injection h with h
      subst h
      conv_lhs => unfold updateMilestoneDates
      rw [if_pos hx]
      rfl
    | false =>
      rw [List.find?_cons_of_neg _ (by simp [hx])] at h
      conv_lhs => unfold updateMilestoneDates
      rw [if_neg (by simp [hx]), ih h]

lemma processMilestones_noop (plan rel : String) (ms : List MSEntry) :
    ∀ tbl : List Milestone,
      (∀ m ∈ ms, tbl.find? (msMatch plan rel (m.name.getD "")) =
        some (mkMilestone plan rel m)) →
      processMilestones true plan rel ms tbl = .ok tbl := by
  induction ms with
  | nil =>
    intro tbl h
    rfl
  | cons m rest ih =>
    intro tbl h
    have hm := h m (List.mem_cons_self m rest)
    rw [processMilestones_cons_found true plan rel m rest tbl _ hm]
    rw [if_neg (by simp)]
    rw [updateMilestoneDates_self plan rel m tbl hm]
    exact ih tbl (fun m' hm' => h m' (List.mem_cons_of_mem m hm'))

/-- C1: for every input and store on which the real (non-dry-run) run succeeds
with exit code 0 — well-formed YAML, existing plan, no conflicts — the same run
with the dry-run flag set exits 0 and leaves the store state unchanged: all
staged creates and updates are rolled back by the sentinel exception raised
inside the transaction, only that sentinel is caught, and every other failure
path still surfaces as a nonzero exit. -/
theorem dry_run_rolls_back (doc : YamlDoc) (upd : Bool) (s s' : Store)
    (h : runImport doc false upd s = ⟨0, s', none⟩) :
    runImport doc true upd s = ⟨0, s, none⟩ := by
  cases hrel : doc.release with
  | none =>
    rw [runImport_none_eq doc false upd s hrel] at h
    simp at h
  | some r =>
    cases hv : relValidate r with
    | some e =>
      rw [runImport_release_eq doc r false upd s hrel, hv] at h
      simp at h
    | none =>
      rw [runImport_valid doc r false upd s hrel hv] at h
      rw [runImport_valid doc r true upd s hrel hv]
      by_cases hplan : (r.plan.getD "") ∈ s.plans
      · cases hr : processRelease upd (r.plan.getD "") (r.name.getD "")
            (r.start_date.getD "") (r.end_date.getD "") s.releases with
        | error e =>
          rw [upsert_release_err r false upd s e hplan hr] at h
          simp at h
        | ok rels =>
          cases hm : processMilestones upd (r.plan.getD "") (r.name.getD "")
              r.milestones s.milestones with
          | error e =>
            rw [upsert_milestone_err r false upd s rels e hplan hr hm] at h
            simp at h
          | ok mss =>
            rw [upsert_ok r true upd s rels mss hplan hr hm]
            simp
      · rw [upsertStage_no_plan r false upd s hplan] at h
        simp at h

theorem dry_run_rolls_back_witness :
    runImport ⟨some ⟨some "p", some "1.0", some "d1", some "d2",
        [⟨some "M1", some "a", some "b"⟩]⟩⟩ true false ⟨["p"], [], []⟩ =
      ⟨0, ⟨["p"], [], []⟩, none⟩ :=
  dry_run_rolls_back
    ⟨some ⟨some "p", some "1.0", some "d1", some "d2",
      [⟨some "M1", some "a", some "b"⟩]⟩⟩ false ⟨["p"], [], []⟩
    ⟨["p"], [⟨"p", "1.0", "d1", "d2"⟩], [⟨"p", "1.0", "M1", "a", "b"⟩]⟩
    (by decide)

/-- C6: on the store produced by a successful import of a well-formed file,
re-importing the same file with the update flag set exits 0 and produces the
identical store: the existing release's and each milestone's dates are
overwritten in place (with the same values), no duplicate (plan, release-name)
or (release, milestone-name) record is created, and nothing is deleted. -/
theorem reimport_with_update_idempotent (doc : YamlDoc) (s0 s1 : Store)
    (h : runImport doc false false s0 = ⟨0, s1, none⟩) :
    runImport doc false true s1 = ⟨0, s1, none⟩ := by
  cases hrel : doc.release with
  | none =>
    rw [runImport_none_eq doc false false s0 hrel] at h
    simp at h
  | some r =>
    cases hv : relValidate r with
    | some e =>
      rw [runImport_release_eq doc r false false s0 hrel, hv] at h
      simp at h
    | none =>
      rw [runImport_valid doc r false false s0 hrel hv] at h
      by_cases hplan : (r.plan.getD "") ∈ s0.plans
      · cases hr : processRelease false (r.plan.getD "") (r.name.getD "")
            (r.start_date.getD "") (r.end_date.getD "") s0.releases with
        | error e =>
          rw [upsert_release_err r false false s0 e hplan hr] at h
          simp at h
        | ok rels =>
          cases hm : processMilestones false (r.plan.getD "") (r.name.getD "")
              r.milestones s0.milestones with
          | error e =>
            rw [upsert_milestone_err r false false s0 rels e hplan hr hm] at h
            simp at h
          | ok mss =>
            rw [upsert_ok r false false s0 rels mss hplan hr hm] at h
            rw [if_neg (by simp)] at h
            have hs1 : s1 = { s0 with releases := rels, milestones := mss } := by
              injection h with h1 h2 h3
              exact h2.symm
            obtain ⟨hfind, hrels⟩ := processRelease_false_ok _ _ _ _ _ _ hr
            obtain ⟨hmss, hfindms⟩ :=
              processMilestones_fresh _ _ r.milestones _ _ hm
            subst hrels hmss hs1
            rw [runImport_valid doc r false true _ hrel hv]
            have hr2 : processRelease true (r.plan.getD "") (r.name.getD "")
                (r.start_date.getD "") (r.end_date.getD "")
                (s0.releases ++ [⟨r.plan.getD "", r.name.getD "",
                  r.start_date.getD "", r.end_date.getD ""⟩]) =
                .ok (s0.releases ++ [⟨r.plan.getD "", r.name.getD "",
                  r.start_date.getD "", r.end_date.getD ""⟩]) :=
              processRelease_update_found _ _ _ _ s0.releases
                (List.find?_eq_none.mp hfind)
            have hm2 : processMilestones true (r.plan.getD "") (r.name.getD "")
                r.milestones
                (s0.milestones ++ r.milestones.map
                  (mkMilestone (r.plan.getD "") (r.name.getD ""))) =
                .ok (s0.milestones ++ r.milestones.map
                  (mkMilestone (r.plan.getD "") (r.name.getD ""))) :=
              processMilestones_noop _ _ r.milestones _ hfindms
            rw [upsert_ok r false true
              (⟨s0.plans,
                s0.releases ++ [(⟨r.plan.getD "", r.name.getD "",
                  r.start_date.getD "", r.end_date.getD ""⟩ : Release)],
                s0.milestones ++ r.milestones.map
                  (mkMilestone (r.plan.getD "") (r.name.getD ""))⟩ : Store)
              (s0.releases ++ [(⟨r.plan.getD "", r.name.getD "",
                r.start_date.getD "", r.end_date.getD ""⟩ : Release)])
              (s0.milestones ++ r.milestones.map
                (mkMilestone (r.plan.getD "") (r.name.getD "")))
              hplan hr2 hm2]
            simp
      · rw [upsertStage_no_plan r false false s0 hplan] at h
        simp at h

theorem reimport_with_update_idempotent_witness :
    runImport ⟨some ⟨some "p", some "1.0", some "d1", some "d2",
        [⟨some "M1", some "a", some "b"⟩]⟩⟩ false true
      ⟨["p"], [⟨"p", "1.0", "d1", "d2"⟩], [⟨"p", "1.0", "M1", "a", "b"⟩]⟩ =
      ⟨0, ⟨["p"], [⟨"p", "1.0", "d1", "d2"⟩], [⟨"p", "1.0", "M1", "a", "b"⟩]⟩,
        none⟩ :=
  reimport_with_update_idempotent
    ⟨some ⟨some "p", some "1.0", some "d1", some "d2",
      [⟨some "M1", some "a", some "b"⟩]⟩⟩ ⟨["p"], [], []⟩
    ⟨["p"], [⟨"p", "1.0", "d1", "d2"⟩], [⟨"p", "1.0", "M1", "a", "b"⟩]⟩
    (by decide)

end LayerIndex
